import Mathlib

/-!
Shallow embedding of the turkey-labeler core (src/ver.py, src/Ver.py):
UPC encoder, label-content builder, the three renderers, and the scale
(weight-source) state machine.  Text is modelled as `List Char`;
Python floats are idealised as exact rationals; Python exceptions are
modelled with `Except String`.
-/

namespace TurkeyLabeler

/-! ### Decimal strings: model of Python `str(n)` for non-negative ints -/

/-- Little-endian decimal digits of `n`, with explicit fuel so the
definition is structurally recursive (fuel `n` always suffices). -/
def decDigitsAux : Nat → Nat → List Nat
  | 0, _ => []
  | _ + 1, 0 => []
  | fuel + 1, n + 1 => ((n + 1) % 10) :: decDigitsAux fuel ((n + 1) / 10)

/-- Little-endian decimal digits of `n` (empty for `0`). -/
def decDigits (n : Nat) : List Nat := decDigitsAux n n

/-- Model of Python `str(n)` for a non-negative integer: most-significant
digit first, `"0"` for zero. -/
def pyStrNat (n : Nat) : List Char :=
  if n = 0 then ['0'] else (decDigits n).reverse.map Nat.digitChar

/-- Model of Python `str(i)` for an arbitrary integer. -/
def pyStrInt (i : Int) : List Char :=
  if i < 0 then '-' :: pyStrNat i.natAbs else pyStrNat i.toNat

/-- Model of Python `str.zfill(w)`: left-pad with `'0'` to width `w`,
inserting the padding after a leading sign, never truncating. -/
def zfill (s : List Char) (w : Nat) : List Char :=
  if w ≤ s.length then s
  else
    let pad := List.replicate (w - s.length) '0'
    match s with
    | c :: rest => if c = '+' ∨ c = '-' then c :: (pad ++ rest) else pad ++ (c :: rest)
    | [] => pad

/-- Decimal value of a digit string, most-significant digit first
(the value recovered by reading the digits back). -/
def strToNat (s : List Char) : Nat :=
  s.foldl (fun a c => a * 10 + (c.toNat - 48)) 0

/-- Little-endian value of a digit list. -/
def valLE : List Nat → Nat
  | [] => 0
  | d :: l => d + 10 * valLE l

/-! ### UPC encoder (src/ver.py `upc_check_digit`, `make_price_embedded_upc`) -/

/-- Model of Python `int(c)` on a single character: the digit value, or a
`ValueError` if the character is not a digit. -/
def pyIntChar (c : Char) : Except String Nat :=
  if c.isDigit then .ok (c.toNat - 48) else .error "invalid literal for int"

/-- Evaluate `pyIntChar` over a string, propagating the first failure
(Python raises during the digit sums). -/
def mapIntChar : List Char → Except String (List Nat)
  | [] => .ok []
  | c :: rest =>
      match pyIntChar c with
      | .error e => .error e
      | .ok v =>
          match mapIntChar rest with
          | .error e => .error e
          | .ok vs => .ok (v :: vs)

/-- Sum of the entries at even (0-indexed) positions: 0, 2, 4, … -/
def sumEvenIdx : List Nat → Nat
  | [] => 0
  | [a] => a
  | a :: _ :: rest => a + sumEvenIdx rest

/-- Sum of the entries at odd (0-indexed) positions: 1, 3, 5, … -/
def sumOddIdx : List Nat → Nat
  | [] => 0
  | [_] => 0
  | _ :: b :: rest => b + sumOddIdx rest

/-- `upc_check_digit(digits11)`: raises unless the input is 11 characters;
sums even 0-indexed positions as `s_odd`, odd positions as `s_even`;
check digit is `(10 - (s_odd*3 + s_even) % 10) % 10`, returned as a
one-character string. -/
def upc_check_digit (digits11 : List Char) : Except String (List Char) :=
  if digits11.length ≠ 11 then .error "Expected 11 digits"
  else
    match mapIntChar digits11 with
    | .error e => .error e
    | .ok ds => .ok [Nat.digitChar ((10 - (sumEvenIdx ds * 3 + sumOddIdx ds) % 10) % 10)]

/-- `make_price_embedded_upc(plu5, price_cents)` with the PLU already a
string (as called from `generate_content`, where it comes from the
product record) and the cents an integer. -/
def make_price_embedded_upcS (plu5 : List Char) (price_cents : Int) :
    Except String (List Char) :=
  let p := zfill plu5 5
  let p5 := zfill (pyStrInt price_cents) 5
  let core := '2' :: (p ++ p5)
  match upc_check_digit core with
  | .error e => .error e
  | .ok cd => .ok (core ++ cd)

/-- `make_price_embedded_upc(seed, cents)` on numeric arguments
(`str(seed)` then `zfill(5)`, as in the source). -/
def make_price_embedded_upc (seed cents : Nat) : Except String (List Char) :=
  make_price_embedded_upcS (pyStrNat seed) (cents : Int)

/-! ### Rounding and fixed-point formatting

Python floats are idealised as exact rationals.  `round` (both the
two-argument form and the int-valued form) and `"%.Nf"` formatting round
half-to-even, which we model exactly on `ℚ`. -/

/-- Round a rational to the nearest integer, ties to even
(the rounding used by Python `round` and float formatting). -/
def roundHalfEven (q : ℚ) : ℤ :=
  if 2 * q < 2 * (⌊q⌋ : ℚ) + 1 then ⌊q⌋
  else if 2 * (⌊q⌋ : ℚ) + 1 < 2 * q then ⌊q⌋ + 1
  else if ⌊q⌋ % 2 = 0 then ⌊q⌋ else ⌊q⌋ + 1

/-- Model of Python `round(x, 2)`. -/
def pyRound2 (q : ℚ) : ℚ := (roundHalfEven (q * 100) : ℚ) / 100

/-- Fixed-point formatting of a non-negative rational with `prec`
fractional digits. -/
def fmtFixedN (a : ℚ) (prec : Nat) : List Char :=
  let n : Nat := (roundHalfEven (a * (10 ^ prec : ℚ))).toNat
  pyStrNat (n / 10 ^ prec) ++ '.' :: zfill (pyStrNat (n % 10 ^ prec)) prec

/-- Model of Python `f"{q:.{prec}f}"` formatting. -/
def fmtFixed (q : ℚ) (prec : Nat) : List Char :=
  if q < 0 then '-' :: fmtFixedN (-q) prec else fmtFixedN q prec

/-! ### Label content builder (src/ver.py `App.generate_content`) -/

/-- A product record as read from the products table. -/
structure Product where
  product_code : List Char
  name : List Char
  price_per_lb : ℚ
  tare : ℚ
  plu_upc : List Char
  deriving DecidableEq

/-- The immutable label-content record produced per print action. -/
structure Content where
  product_name : List Char
  weight : ℚ
  price_per_lb : ℚ
  total_price : ℚ
  sell_by : List Char
  lot : List Char
  upc : List Char
  deriving DecidableEq

/-- `App.generate_content`: net weight is `max(0, gross - tare)`; total
price is `round(net * price_per_lb + 1e-9, 2)`; cents is
`int(round(total * 100))`; the UPC seed falls back from `plu_upc` to
`product_code` when the former is empty (Python falsy string). -/
def generate_content (prod : Product) (weight : ℚ) (sell_by lot : List Char) :
    Except String Content :=
  let net := max 0 (weight - prod.tare)
  let total := pyRound2 (net * prod.price_per_lb + 1 / 1000000000)
  let cents := roundHalfEven (total * 100)
  let upc_src := if prod.plu_upc = [] then prod.product_code else prod.plu_upc
  match make_price_embedded_upcS upc_src cents with
  | .error e => .error e
  | .ok upc =>
      .ok { product_name := prod.name, weight := net, price_per_lb := prod.price_per_lb,
            total_price := total, sell_by := sell_by, lot := lot, upc := upc }

/-! ### Text substitution (src/ver.py `render_prn_template`)

`re.sub` with a literal pattern and `re.IGNORECASE`, and `str.replace`,
both scan left to right and replace non-overlapping occurrences; the
replacement text is not rescanned. -/

/-- Shorthand: character list of a string literal. -/
def strL (s : String) : List Char := s.data

/-- ASCII lower-casing, as used for case-insensitive matching. -/
def lowerAscii (c : Char) : Char :=
  if 65 ≤ c.toNat ∧ c.toNat ≤ 90 then Char.ofNat (c.toNat + 32) else c

/-- Does the (already lower-case) pattern match the front of the text,
ASCII-case-insensitively? -/
def matchLower : List Char → List Char → Bool
  | [], _ => true
  | _ :: _, [] => false
  | p :: ps, c :: cs => lowerAscii c = p && matchLower ps cs

/-- Replace all non-overlapping occurrences of `pat` by `rep`, scanning
left to right; `ci` selects case-insensitive matching.  The fuel is the
length of the text, which always suffices. -/
def substAux (ci : Bool) (pat rep : List Char) : Nat → List Char → List Char
  | _, [] => []
  | 0, txt => txt
  | fuel + 1, c :: rest =>
      let hit := if ci then matchLower pat (c :: rest) else pat.isPrefixOf (c :: rest)
      if hit then rep ++ substAux ci pat rep fuel (List.drop (pat.length - 1) rest)
      else c :: substAux ci pat rep fuel rest

/-- `re.sub(re.escape(pat), rep, txt, flags=re.IGNORECASE)` for a
brace-delimited literal pattern. -/
def reSubCI (pat rep txt : List Char) : List Char := substAux true pat rep txt.length txt

/-- Python `txt.replace(pat, rep)`. -/
def strReplace (pat rep txt : List Char) : List Char := substAux false pat rep txt.length txt

/-- `render_prn_template` on the loaded template text: the seven curly
placeholders are substituted case-insensitively in dict order, then the
four angle-bracket aliases are replaced case-sensitively in dict order
(`<KillDate>` ↦ lot, `<WtLbs>` ↦ weight, `<PluWgtSer>` ↦ upc,
`<SellBy1>` ↦ sell_by). -/
def render_prn_template (txt : List Char) (c : Content) : List Char :=
  let t := reSubCI (strL "{product_name}") c.product_name txt
  let t := reSubCI (strL "{weight}") (fmtFixed c.weight 3) t
  let t := reSubCI (strL "{price_per_lb}") (fmtFixed c.price_per_lb 2) t
  let t := reSubCI (strL "{total_price}") (fmtFixed c.total_price 2) t
  let t := reSubCI (strL "{sell_by}") c.sell_by t
  let t := reSubCI (strL "{lot}") c.lot t
  let t := reSubCI (strL "{upc}") c.upc t
  let t := strReplace (strL "<KillDate>") c.lot t
  let t := strReplace (strL "<WtLbs>") (fmtFixed c.weight 3) t
  let t := strReplace (strL "<PluWgtSer>") c.upc t
  strReplace (strL "<SellBy1>") c.sell_by t

/-! ### Layout templates and the two positional renderers -/

/-- A template field, with the JSON defaults already resolved
(`x`/`y` default 0, `size` 8, `height` 0.3 for barcodes). -/
structure Field where
  name : List Char
  x : ℚ
  y : ℚ
  size : ℚ
  width : ℚ
  height : ℚ
  deriving DecidableEq

/-- A loaded JSON template. -/
structure Template where
  size_w : ℚ
  size_h : ℚ
  font : List Char
  fields : List Field
  deriving DecidableEq

/-- The `default_2x2.json` template written by `ensure_templates`. -/
def default_2x2 : Template :=
  { size_w := 2, size_h := 2, font := strL "Helvetica",
    fields :=
      [ { name := strL "product_name", x := 1/10, y := 27/20, size := 10, width := 0, height := 3/10 },
        { name := strL "weight", x := 1/10, y := 21/20, size := 9, width := 0, height := 3/10 },
        { name := strL "price_per_lb", x := 1/10, y := 17/20, size := 9, width := 0, height := 3/10 },
        { name := strL "total_price", x := 1/10, y := 13/20, size := 12, width := 0, height := 3/10 },
        { name := strL "sell_by", x := 1/10, y := 9/20, size := 8, width := 0, height := 3/10 },
        { name := strL "lot", x := 1/10, y := 1/4, size := 8, width := 0, height := 3/10 },
        { name := strL "barcode", x := 1/10, y := 1/50, size := 8, width := 9/5, height := 9/20 } ] }

/-- The text drawn by `generate_label_pdf` for one non-barcode field
(the per-name dispatch of the vector renderer). -/
def pdfFieldText (c : Content) (name : List Char) : List Char :=
  if name = strL "product_name" then c.product_name
  else if name = strL "weight" then strL "Weight: " ++ fmtFixed c.weight 3 ++ strL " lb"
  else if name = strL "price_per_lb" then fmtFixed c.price_per_lb 2 ++ strL " /lb"
  else if name = strL "total_price" then strL "Total: $" ++ fmtFixed c.total_price 2
  else if name = strL "sell_by" then strL "Sell by: " ++ c.sell_by
  else if name = strL "lot" then strL "Lot: " ++ c.lot
  else if name = strL "upc" then c.upc
  else []

/-- Abstraction of the vector renderer's output: the sequence of strings
drawn on the canvas, one per field, in field order.  A barcode field
renders the UPC digits (as a UPC-A symbol with human-readable digits, or
the literal fallback text `"UPC:<code>"`); we record the fallback form. -/
def generate_label_pdf_texts (tpl : Template) (c : Content) : List (List Char) :=
  tpl.fields.map fun fld =>
    if fld.name = strL "barcode" then strL "UPC:" ++ c.upc else pdfFieldText c fld.name

/-- `inches_to_dots(v_in, dpi) = int(round(v_in * dpi))`. -/
def inches_to_dots (v_in : ℚ) (dpi : ℚ) : ℤ := roundHalfEven (v_in * dpi)

/-- The text placed by `generate_datamax_from_template` for one
non-barcode field. -/
def datamaxText (c : Content) (name : List Char) : List Char :=
  if name = strL "product_name" then c.product_name
  else if name = strL "weight" then fmtFixed c.weight 3 ++ strL " lb"
  else if name = strL "price_per_lb" then fmtFixed c.price_per_lb 2 ++ strL " /lb"
  else if name = strL "total_price" then strL "Total: $" ++ fmtFixed c.total_price 2
  else if name = strL "sell_by" then strL "Sell by: " ++ c.sell_by
  else if name = strL "lot" then strL "Lot: " ++ c.lot
  else if name = strL "upc" then c.upc
  else []

/-- One opcode line of the Datamax output: a `B` barcode line or an `A`
text line, with dot coordinates. -/
def datamaxFieldLine (c : Content) (dpi : ℚ) (fld : Field) : List Char :=
  let x := pyStrInt (inches_to_dots fld.x dpi)
  let y := pyStrInt (inches_to_dots fld.y dpi)
  if fld.name = strL "barcode" then
    strL "B" ++ x ++ strL "," ++ y ++ strL ",0,E30,2,2," ++
      pyStrInt (inches_to_dots fld.height dpi) ++ strL ",N,\"" ++ c.upc ++ strL "\""
  else
    strL "A" ++ x ++ strL "," ++ y ++ strL ",0,3,1,1,N,\"" ++
      datamaxText c fld.name ++ strL "\""

/-- Python `"\n".join(lines)`. -/
def joinNL : List (List Char) → List Char
  | [] => []
  | [l] => l
  | l :: rest => l ++ '\n' :: joinNL rest

/-- `generate_datamax_from_template`: page-size declaration, one opcode
line per field, and the terminating print command, joined by newlines. -/
def generate_datamax_from_template (tpl : Template) (c : Content) (dpi : ℚ) : List Char :=
  let lines :=
    [strL "N",
     'q' :: pyStrInt (inches_to_dots tpl.size_w dpi),
     'Q' :: pyStrInt (inches_to_dots tpl.size_h dpi) ++ strL ",24"]
    ++ tpl.fields.map (datamaxFieldLine c dpi)
    ++ [strL "P1"]
  joinNL lines

/-! ### Weight source (src/ver.py `ScaleInterface`)

Sequential model of the scale's shared state.  `threads` counts live
background sampling tasks (the source keeps at most a single `_thread`
handle); timestamps are rationals standing for `time.time()` values.
The registered callback is modelled as a function that may raise
(`Except`); the trigger path swallows its exceptions. -/

structure ScaleInterface where
  running : Bool
  threads : Nat
  last_trigger : ℚ
  deriving DecidableEq

/-- `ScaleInterface.__init__`: not running, no thread, `_last_trigger = 0.0`. -/
def ScaleInterface.init : ScaleInterface :=
  { running := false, threads := 0, last_trigger := 0 }

/-- `start()`: early-returns if already running, otherwise sets the flag
and spawns one background sampling task. -/
def ScaleInterface.start (s : ScaleInterface) : ScaleInterface :=
  if s.running then s else { s with running := true, threads := s.threads + 1 }

/-- `stop()`: clears the running flag; if a thread handle is present it
is joined (the task exits at its next iteration boundary once
`_running` is false) and the handle is dropped. -/
def ScaleInterface.stop (s : ScaleInterface) : ScaleInterface :=
  { s with running := false, threads := s.threads - 1 }

/-- `_trigger(w)`: drops the sample when it arrives less than 1.2 s
after the previously accepted one; otherwise records the time and
invokes the registered callback once, discarding any exception it
raises.  Returns the new state and the number of callback invocations
made by this call. -/
def ScaleInterface.trigger (cb : Option (ℚ → Except String Unit))
    (s : ScaleInterface) (now w : ℚ) : ScaleInterface × Nat :=
  if now - s.last_trigger < 6/5 then (s, 0)
  else
    let s' := { s with last_trigger := now }
    match cb with
    | none => (s', 0)
    | some f =>
        match f w with
        | .ok _ => (s', 1)
        | .error _ => (s', 1)

/-- The sampling loop delivering a sequence of timestamped samples to
`_trigger`; returns the final state and the total number of callback
invocations. -/
def runTriggers (cb : Option (ℚ → Except String Unit)) (s : ScaleInterface) :
    List (ℚ × ℚ) → ScaleInterface × Nat
  | [] => (s, 0)
  | (now, w) :: rest =>
      let p := ScaleInterface.trigger cb s now w
      let r := runTriggers cb p.1 rest
      (r.1, p.2 + r.2)

/-- The number of samples the debounce rule accepts, computed directly
from the 1.2 s specification. -/
def countAccepted (last : ℚ) : List (ℚ × ℚ) → Nat
  | [] => 0
  | (now, _) :: rest =>
      if now - last < 6/5 then countAccepted last rest
      else 1 + countAccepted now rest

/-- External operations on the weight source's lifecycle. -/
inductive ScaleOp where
  | start
  | stop
  deriving DecidableEq

/-- Apply a sequence of `start`/`stop` calls. -/
def runOps (s : ScaleInterface) : List ScaleOp → ScaleInterface
  | [] => s
  | .start :: rest => runOps s.start rest
  | .stop :: rest => runOps s.stop rest

/-! ### Supporting lemmas: decimal strings -/

theorem decDigitsAux_length_le (fuel : Nat) :
    ∀ n k, n ≤ fuel → n < 10 ^ k → (decDigitsAux fuel n).length ≤ k := by
  induction fuel with
  | zero =>
      intro n k hn _
      interval_cases n
      simp [decDigitsAux]
  | succ fuel ih =>
      intro n k hn hk
      match n with
      | 0 => simp [decDigitsAux]
      | m + 1 =>
          match k with
          | 0 => omega
          | k + 1 =>
              simp only [decDigitsAux, List.length_cons]
              have h1 : (m + 1) / 10 ≤ fuel := by omega
              have h2 : (m + 1) / 10 < 10 ^ k := by
                apply Nat.div_lt_of_lt_mul
                calc m + 1 < 10 ^ (k + 1) := hk
                  _ = 10 * 10 ^ k := by ring
              have := ih _ _ h1 h2
              omega

theorem decDigitsAux_mem_lt (fuel : Nat) :
    ∀ n, ∀ d ∈ decDigitsAux fuel n, d < 10 := by
  induction fuel with
  | zero => intro n d hd; simp [decDigitsAux] at hd
  | succ fuel ih =>
      intro n d hd
      match n with
      | 0 => simp [decDigitsAux] at hd
      | m + 1 =>
          simp only [decDigitsAux, List.mem_cons] at hd
          rcases hd with h | h
          · omega
          · exact ih _ _ h

theorem valLE_decDigitsAux (fuel : Nat) :
    ∀ n, n ≤ fuel → valLE (decDigitsAux fuel n) = n := by
  induction fuel with
  | zero =>
      intro n hn
      interval_cases n
      simp [decDigitsAux, valLE]
  | succ fuel ih =>
      intro n hn
      match n with
      | 0 => simp [decDigitsAux, valLE]
      | m + 1 =>
          simp only [decDigitsAux, valLE]
          rw [ih _ (by omega)]
          omega

theorem lt_pow_decDigitsAux_length (fuel : Nat) :
    ∀ n, n ≤ fuel → n < 10 ^ (decDigitsAux fuel n).length := by
  induction fuel with
  | zero =>
      intro n hn
      interval_cases n
      simp [decDigitsAux]
  | succ fuel ih =>
      intro n hn
      match n with
      | 0 => simp [decDigitsAux]
      | m + 1 =>
          simp only [decDigitsAux, List.length_cons]
          have h1 : (m + 1) / 10 ≤ fuel := by omega
          have h2 := ih _ h1
          have h3 := Nat.div_add_mod (m + 1) 10
          have h4 : (m + 1) % 10 < 10 := by omega
          calc m + 1 = 10 * ((m + 1) / 10) + (m + 1) % 10 := by omega
            _ < 10 * ((m + 1) / 10 + 1) := by omega
            _ ≤ 10 * 10 ^ (decDigitsAux fuel ((m + 1) / 10)).length := by
                have : (m + 1) / 10 + 1 ≤ 10 ^ (decDigitsAux fuel ((m + 1) / 10)).length := h2
                omega
            _ = 10 ^ ((decDigitsAux fuel ((m + 1) / 10)).length + 1) := by ring

theorem digitChar_isDigit {d : Nat} (hd : d < 10) : (Nat.digitChar d).isDigit = true := by
  interval_cases d <;> decide

theorem digitChar_toNat {d : Nat} (hd : d < 10) : (Nat.digitChar d).toNat = 48 + d := by
  interval_cases d <;> decide

theorem pyStrNat_ne_nil (n : Nat) : pyStrNat n ≠ [] := by
  by_cases h : n = 0
  · simp [pyStrNat, h]
  · simp only [pyStrNat, if_neg h]
    intro hc
    have hlen := congrArg List.length hc
    simp only [List.length_map, List.length_reverse, List.length_nil] at hlen
    have hnil : decDigits n = [] := List.eq_nil_of_length_eq_zero hlen
    have h0 := valLE_decDigitsAux n n le_rfl
    rw [show decDigitsAux n n = decDigits n from rfl, hnil] at h0
    simp [valLE] at h0
    exact h h0.symm

theorem pyStrNat_isDigit (n : Nat) : ∀ c ∈ pyStrNat n, c.isDigit = true := by
  intro c hc
  by_cases h : n = 0
  · simp [pyStrNat, h] at hc
    subst hc; decide
  · simp only [pyStrNat, if_neg h, List.mem_map, List.mem_reverse] at hc
    obtain ⟨d, hd, rfl⟩ := hc
    exact digitChar_isDigit (decDigitsAux_mem_lt n n d hd)

theorem pyStrNat_length_le {n k : Nat} (hk : 0 < k) (hn : n < 10 ^ k) :
    (pyStrNat n).length ≤ k := by
  by_cases h : n = 0
  · simp [pyStrNat, h]; omega
  · simp only [pyStrNat, if_neg h, List.length_map, List.length_reverse]
    exact decDigitsAux_length_le n n k le_rfl hn

theorem pyStrNat_length_gt {n k : Nat} (hn : 10 ^ k ≤ n) :
    k < (pyStrNat n).length := by
  have hn0 : n ≠ 0 := by
    intro h; rw [h] at hn
    have : 0 < 10 ^ k := Nat.pos_pow_of_pos k (by norm_num)
    omega
  simp only [pyStrNat, if_neg hn0, List.length_map, List.length_reverse]
  have h1 := lt_pow_decDigitsAux_length n n le_rfl
  by_contra hc
  push_neg at hc
  have : (10:Nat) ^ (decDigitsAux n n).length ≤ 10 ^ k :=
    Nat.pow_le_pow_right (by norm_num) hc
  omega

theorem strToNat_replicate_zero_append (k : Nat) (l : List Char) :
    strToNat (List.replicate k '0' ++ l) = strToNat l := by
  induction k with
  | zero => simp
  | succ k ih =>
      simp only [List.replicate_succ, List.cons_append, strToNat, List.foldl_cons]
      simpa [strToNat] using ih

theorem foldl_decimal (l : List Nat) :
    ∀ a : Nat, (∀ d ∈ l, d < 10) →
      (l.reverse.map Nat.digitChar).foldl (fun a c => a * 10 + (c.toNat - 48)) a =
        a * 10 ^ l.length + valLE l := by
  induction l with
  | nil => intro a _; simp [valLE]
  | cons d l ih =>
      intro a hd
      simp only [List.reverse_cons, List.map_append, List.foldl_append, List.map_cons,
        List.foldl_cons, List.map_nil, List.foldl_nil, List.length_cons, valLE]
      rw [ih a (fun x hx => hd x (List.mem_cons_of_mem _ hx))]
      rw [digitChar_toNat (hd d (List.mem_cons_self _ _))]
      ring_nf
      omega

theorem strToNat_pyStrNat (n : Nat) : strToNat (pyStrNat n) = n := by
  by_cases h : n = 0
  · subst h; decide
  · simp only [pyStrNat, if_neg h, strToNat]
    have := foldl_decimal (decDigits n) 0 (decDigitsAux_mem_lt n n)
    simp only [strToNat] at this ⊢
    rw [show decDigits n = decDigitsAux n n from rfl] at this ⊢
    rw [this, valLE_decDigitsAux n n le_rfl]
    simp

theorem isDigit_not_sign {c : Char} (h : c.isDigit = true) : ¬(c = '+' ∨ c = '-') := by
  rintro (rfl | rfl) <;> simp at h

theorem zfill_eq_pad {s : List Char} (w : Nat) (hd : ∀ c ∈ s, c.isDigit = true) :
    zfill s w = List.replicate (w - s.length) '0' ++ s := by
  by_cases hw : w ≤ s.length
  · have : w - s.length = 0 := by omega
    simp [zfill, hw, this]
  · match s with
    | [] => simp [zfill, hw]
    | c :: rest =>
        have hc := hd c (List.mem_cons_self _ _)
        simp only [zfill, if_neg hw]
        rw [if_neg (isDigit_not_sign hc)]

theorem zfill_length {s : List Char} (w : Nat) (hd : ∀ c ∈ s, c.isDigit = true) :
    (zfill s w).length = max s.length w := by
  rw [zfill_eq_pad w hd]
  simp only [List.length_append, List.length_replicate]
  omega

theorem zfill_isDigit {s : List Char} (w : Nat) (hd : ∀ c ∈ s, c.isDigit = true) :
    ∀ c ∈ zfill s w, c.isDigit = true := by
  rw [zfill_eq_pad w hd]
  intro c hc
  rcases List.mem_append.mp hc with h | h
  · rw [List.eq_of_mem_replicate h]; decide
  · exact hd c h

theorem strToNat_zfill {s : List Char} (w : Nat) (hd : ∀ c ∈ s, c.isDigit = true) :
    strToNat (zfill s w) = strToNat s := by
  rw [zfill_eq_pad w hd, strToNat_replicate_zero_append]

theorem mapIntChar_ok (l : List Char) (hd : ∀ c ∈ l, c.isDigit = true) :
    mapIntChar l = .ok (l.map fun c => c.toNat - 48) := by
  induction l with
  | nil => rfl
  | cons c rest ih =>
      have hc : pyIntChar c = .ok (c.toNat - 48) := by
        simp [pyIntChar, hd c (List.mem_cons_self _ _)]
      rw [mapIntChar, hc, ih (fun x hx => hd x (List.mem_cons_of_mem _ hx))]
      rfl

theorem pyStrInt_ofNat (n : Nat) : pyStrInt (n : Int) = pyStrNat n := by
  simp [pyStrInt]

/-- Digit values of a digit string (used to recompute the check). -/
def upcVals (s : List Char) : List Nat := s.map fun c => c.toNat - 48

theorem upc_check_digit_ok {s : List Char} (h11 : s.length = 11)
    (hd : ∀ c ∈ s, c.isDigit = true) :
    upc_check_digit s =
      .ok [Nat.digitChar
        ((10 - (sumEvenIdx (upcVals s) * 3 + sumOddIdx (upcVals s)) % 10) % 10)] := by
  simp [upc_check_digit, h11, mapIntChar_ok s hd, upcVals]

theorem core_digits {p q : List Char} (hpd : ∀ c ∈ p, c.isDigit = true)
    (hqd : ∀ c ∈ q, c.isDigit = true) :
    ∀ c ∈ '2' :: (p ++ q), c.isDigit = true := by
  intro c hc
  rcases List.mem_cons.mp hc with rfl | hc
  · decide
  · rcases List.mem_append.mp hc with h | h
    · exact hpd c h
    · exact hqd c h

/-- C2: for all seed, cents in [0, 99999], `make_price_embedded_upc`
returns exactly 12 decimal digits: the sentinel `'2'`, the zero-padded
seed, the zero-padded cents (both recoverable by reading the digits
back), and a final digit equal to the mod-10 weighted check recomputed
from the first 11 digits of the output. -/
theorem make_price_embedded_upc_wellformed (seed cents : Nat)
    (hseed : seed < 100000) (hcents : cents < 100000) :
    ∃ u : List Char,
      make_price_embedded_upc seed cents = .ok u ∧
      u.length = 12 ∧
      (∀ c ∈ u, c.isDigit = true) ∧
      u.take 1 = ['2'] ∧
      (u.drop 1).take 5 = zfill (pyStrNat seed) 5 ∧
      strToNat ((u.drop 1).take 5) = seed ∧
      (u.drop 6).take 5 = zfill (pyStrNat cents) 5 ∧
      strToNat ((u.drop 6).take 5) = cents ∧
      u.drop 11 =
        [Nat.digitChar ((10 - (sumEvenIdx (upcVals (u.take 11)) * 3 +
            sumOddIdx (upcVals (u.take 11))) % 10) % 10)] := by
  have hds := pyStrNat_isDigit seed
  have hdc := pyStrNat_isDigit cents
  have hpd := zfill_isDigit (s := pyStrNat seed) 5 hds
  have hqd := zfill_isDigit (s := pyStrNat cents) 5 hdc
  have hpl : (zfill (pyStrNat seed) 5).length = 5 := by
    rw [zfill_length 5 hds]
    have := pyStrNat_length_le (n := seed) (k := 5) (by norm_num) hseed
    omega
  have hql : (zfill (pyStrNat cents) 5).length = 5 := by
    rw [zfill_length 5 hdc]
    have := pyStrNat_length_le (n := cents) (k := 5) (by norm_num) hcents
    omega
  have hclen : ('2' :: (zfill (pyStrNat seed) 5 ++ zfill (pyStrNat cents) 5)).length = 11 := by
    simp [hpl, hql]
  have hcdig := core_digits hpd hqd
  have hchk := upc_check_digit_ok hclen hcdig
  refine ⟨('2' :: (zfill (pyStrNat seed) 5 ++ zfill (pyStrNat cents) 5)) ++
      [Nat.digitChar ((10 - (sumEvenIdx (upcVals ('2' :: (zfill (pyStrNat seed) 5 ++
        zfill (pyStrNat cents) 5))) * 3 +
        sumOddIdx (upcVals ('2' :: (zfill (pyStrNat seed) 5 ++
        zfill (pyStrNat cents) 5)))) % 10) % 10)], ?_, ?_, ?_, ?_, ?_, ?_, ?_, ?_, ?_⟩
  · simp only [make_price_embedded_upc, make_price_embedded_upcS, pyStrInt_ofNat]
    rw [hchk]
  · simp [hpl, hql]
  · intro c hc
    rcases List.mem_append.mp hc with h | h
    · exact hcdig c h
    · simp only [List.mem_singleton] at h
      subst h
      exact digitChar_isDigit (Nat.mod_lt _ (by norm_num))
  · rfl
  · show (((zfill (pyStrNat seed) 5 ++ zfill (pyStrNat cents) 5) ++ _).take 5) = _
    rw [List.append_assoc, List.take_left' hpl]
  · show strToNat (((zfill (pyStrNat seed) 5 ++ zfill (pyStrNat cents) 5) ++ _).take 5) = _
    rw [List.append_assoc, List.take_left' hpl, strToNat_zfill 5 hds, strToNat_pyStrNat]
  · show (((zfill (pyStrNat seed) 5 ++ zfill (pyStrNat cents) 5) ++ _).drop 5).take 5 = _
    rw [List.append_assoc, List.drop_left' hpl, List.take_left' hql]
  · show strToNat ((((zfill (pyStrNat seed) 5 ++ zfill (pyStrNat cents) 5) ++ _).drop 5).take 5) = _
    rw [List.append_assoc, List.drop_left' hpl, List.take_left' hql,
      strToNat_zfill 5 hdc, strToNat_pyStrNat]
  · rw [List.drop_left' hclen, List.take_left' hclen]

/-- C2 witness: the well-formedness theorem instantiated at
seed 12345, cents 1480 (the UPC of the worked example). -/
theorem make_price_embedded_upc_wellformed_witness :
    ∃ u : List Char,
      make_price_embedded_upc 12345 1480 = .ok u ∧
      u.length = 12 ∧
      (∀ c ∈ u, c.isDigit = true) ∧
      u.take 1 = ['2'] ∧
      (u.drop 1).take 5 = zfill (pyStrNat 12345) 5 ∧
      strToNat ((u.drop 1).take 5) = 12345 ∧
      (u.drop 6).take 5 = zfill (pyStrNat 1480) 5 ∧
      strToNat ((u.drop 6).take 5) = 1480 ∧
      u.drop 11 =
        [Nat.digitChar ((10 - (sumEvenIdx (upcVals (u.take 11)) * 3 +
            sumOddIdx (upcVals (u.take 11))) % 10) % 10)] :=
  make_price_embedded_upc_wellformed 12345 1480 (by norm_num) (by norm_num)

/-- C3 counterexample: for the six-digit seed 123456 the encoder does
not truncate and does not return a 12-digit code; it fails with the
11-digit length error (Python `ValueError`). -/
theorem make_price_embedded_upc_no_truncation :
    make_price_embedded_upc 123456 0 = .error "Expected 11 digits" := rfl

/-- C3 amended: `make_price_embedded_upc` zero-pads but never
truncates; whenever the seed or the cents value has more than 5 decimal
digits, the 11-digit length check fails and the call raises
`ValueError('Expected 11 digits')` instead of returning a code. -/
theorem make_price_embedded_upc_overflow (seed cents : Nat)
    (h : 100000 ≤ seed ∨ 100000 ≤ cents) :
    make_price_embedded_upc seed cents = .error "Expected 11 digits" := by
  have hds := pyStrNat_isDigit seed
  have hdc := pyStrNat_isDigit cents
  have hpl : (zfill (pyStrNat seed) 5).length = max (pyStrNat seed).length 5 :=
    zfill_length 5 hds
  have hql : (zfill (pyStrNat cents) 5).length = max (pyStrNat cents).length 5 :=
    zfill_length 5 hdc
  have hbig : ('2' :: (zfill (pyStrNat seed) 5 ++ zfill (pyStrNat cents) 5)).length ≠ 11 := by
    simp only [List.length_cons, List.length_append, hpl, hql]
    rcases h with h | h
    · have := pyStrNat_length_gt (n := seed) (k := 5) h
      omega
    · have := pyStrNat_length_gt (n := cents) (k := 5) h
      omega
  simp only [make_price_embedded_upc, make_price_embedded_upcS, pyStrInt_ofNat,
    upc_check_digit]
  rw [if_pos hbig]

/-- C3 amended witness: at seed 123456, cents 99999 both hypotheses of
the overflow theorem are dischargeable and the encoder errors. -/
theorem make_price_embedded_upc_overflow_witness :
    make_price_embedded_upc 123456 99999 = .error "Expected 11 digits" :=
  make_price_embedded_upc_overflow 123456 99999 (Or.inl (by norm_num))

/-! ### Claim C1: pricing in `generate_content` -/

/-- The product row seeded by `init_db`:
`("12345", "Chicken Breast", 2.99, 0.05, "12345")`. -/
def chickenBreast : Product :=
  { product_code := strL "12345", name := strL "Chicken Breast",
    price_per_lb := 299/100, tare := 1/20, plu_upc := strL "12345" }

/-- A product whose price puts `net * price` exactly on a half-cent
boundary for gross weight 7.4025 lb. -/
def boundaryProduct : Product :=
  { product_code := strL "1", name := strL "Boundary",
    price_per_lb := 2, tare := 0, plu_upc := strL "1" }

theorem generate_content_eval (prod : Product) (w : ℚ) (sb lt : List Char)
    (t : ℚ) (cz : Int) (u : List Char)
    (ht : pyRound2 (max 0 (w - prod.tare) * prod.price_per_lb + 1 / 1000000000) = t)
    (hc : roundHalfEven (t * 100) = cz)
    (hu : make_price_embedded_upcS
      (if prod.plu_upc = [] then prod.product_code else prod.plu_upc) cz = .ok u) :
    generate_content prod w sb lt =
      .ok { product_name := prod.name, weight := max 0 (w - prod.tare),
            price_per_lb := prod.price_per_lb, total_price := t,
            sell_by := sb, lot := lt, upc := u } := by
  simp only [generate_content, ht, hc, hu]

/-- C1: for every product and gross weight, `generate_content` computes
net = `max(0, gross - tare)` and total = `round(net*price + 1e-9, 2)`;
at gross 5.0, tare 0.05, price 2.99 this yields net 4.95 and total
14.80; and at the synthetic half-cent boundary `net*price = 14.805`
the epsilon bias rounds up to 14.81 whereas the unbiased half-even
rounding of the same product would give 14.80. -/
theorem generate_content_pricing :
    (∀ (prod : Product) (w : ℚ) (sb lt : List Char) (c : Content),
        generate_content prod w sb lt = .ok c →
        c.weight = max 0 (w - prod.tare) ∧
        c.total_price =
          pyRound2 (max 0 (w - prod.tare) * prod.price_per_lb + 1 / 1000000000)) ∧
    generate_content chickenBreast 5 (strL "2025-01-01") (strL "L1") =
      .ok { product_name := strL "Chicken Breast", weight := 99/20,
            price_per_lb := 299/100, total_price := 74/5,
            sell_by := strL "2025-01-01", lot := strL "L1",
            upc := strL "212345014806" } ∧
    generate_content boundaryProduct (2961/400) [] [] =
      .ok { product_name := strL "Boundary", weight := 2961/400,
            price_per_lb := 2, total_price := 1481/100,
            sell_by := [], lot := [],
            upc := strL "200001014819" } ∧
    pyRound2 ((2961/400 : ℚ) * 2) = 74/5 := by
  refine ⟨?_, ?_, ?_, ?_⟩
  · intro prod w sb lt c h
    simp only [generate_content] at h
    rcases hm : make_price_embedded_upcS
        (if prod.plu_upc = [] then prod.product_code else prod.plu_upc)
        (roundHalfEven
          (pyRound2 (max 0 (w - prod.tare) * prod.price_per_lb + 1 / 1000000000) * 100)) with
      e | u
    · rw [hm] at h; cases h
    · rw [hm] at h
      cases h
      exact ⟨rfl, rfl⟩
  · have ht : pyRound2 (max 0 ((5:ℚ) - chickenBreast.tare) * chickenBreast.price_per_lb +
        1 / 1000000000) = 74/5 := by
      norm_num [chickenBreast, pyRound2, roundHalfEven]
    have hc : roundHalfEven ((74/5 : ℚ) * 100) = 1480 := by
      norm_num [roundHalfEven]
    have hw : max 0 ((5:ℚ) - chickenBreast.tare) = 99/20 := by
      norm_num [chickenBreast]
    have := generate_content_eval chickenBreast 5 (strL "2025-01-01") (strL "L1")
      (74/5) 1480 (strL "212345014806") ht hc rfl
    rw [this, hw]
    rfl
  · have ht : pyRound2 (max 0 ((2961/400 : ℚ) - boundaryProduct.tare) *
        boundaryProduct.price_per_lb + 1 / 1000000000) = 1481/100 := by
      norm_num [boundaryProduct, pyRound2, roundHalfEven]
    have hc : roundHalfEven ((1481/100 : ℚ) * 100) = 1481 := by
      norm_num [roundHalfEven]
    have hw : max 0 ((2961/400 : ℚ) - boundaryProduct.tare) = 2961/400 := by
      norm_num [boundaryProduct]
    have := generate_content_eval boundaryProduct (2961/400) [] []
      (1481/100) 1481 (strL "200001014819") ht hc rfl
    rw [this, hw]
    rfl
  · norm_num [pyRound2, roundHalfEven]

/-- C1 witness: the universally quantified conjunct applied at the
worked example, with its `ok` hypothesis discharged concretely. -/
theorem generate_content_pricing_witness :
    ({ product_name := strL "Chicken Breast", weight := 99/20,
       price_per_lb := 299/100, total_price := 74/5,
       sell_by := strL "2025-01-01", lot := strL "L1",
       upc := strL "212345014806" } : Content).weight =
        max 0 ((5:ℚ) - chickenBreast.tare) ∧
    ({ product_name := strL "Chicken Breast", weight := 99/20,
       price_per_lb := 299/100, total_price := 74/5,
       sell_by := strL "2025-01-01", lot := strL "L1",
       upc := strL "212345014806" } : Content).total_price =
        pyRound2 (max 0 ((5:ℚ) - chickenBreast.tare) * chickenBreast.price_per_lb +
          1 / 1000000000) :=
  generate_content_pricing.1 chickenBreast 5 (strL "2025-01-01") (strL "L1") _
    generate_content_pricing.2.1

/-! ### Supporting lemmas: substitution and character sets -/

theorem substAux_plain_id {pat' : List Char} (rep : List Char) :
    ∀ (fuel : Nat) (txt : List Char), (∀ ch ∈ txt, ch ≠ '<') →
      substAux false ('<' :: pat') rep fuel txt = txt := by
  intro fuel
  induction fuel with
  | zero => intro txt _; cases txt <;> rfl
  | succ fuel ih =>
      intro txt h
      match txt with
      | [] => rfl
      | c :: rest =>
          have hc : c ≠ '<' := h c (List.mem_cons_self _ _)
          have hhit : List.isPrefixOf ('<' :: pat') (c :: rest) = false := by
            simp [List.isPrefixOf]
            intro hceq
            exact absurd hceq.symm hc
          simp only [substAux, hhit, Bool.false_eq_true, if_false]
          rw [ih rest (fun x hx => h x (List.mem_cons_of_mem _ hx))]

theorem substAux_ci_id {pat' : List Char} (rep : List Char) :
    ∀ (fuel : Nat) (txt : List Char), (∀ ch ∈ txt, lowerAscii ch ≠ '{') →
      substAux true ('{' :: pat') rep fuel txt = txt := by
  intro fuel
  induction fuel with
  | zero => intro txt _; cases txt <;> rfl
  | succ fuel ih =>
      intro txt h
      match txt with
      | [] => rfl
      | c :: rest =>
          have hc : lowerAscii c ≠ '{' := h c (List.mem_cons_self _ _)
          have hhit : matchLower ('{' :: pat') (c :: rest) = false := by
            simp [matchLower]
            intro hceq
            exact absurd hceq hc
          simp only [substAux, hhit, Bool.false_eq_true, if_true]
          rw [ih rest (fun x hx => h x (List.mem_cons_of_mem _ hx))]
          simp

theorem reSubCI_id {pat' : List Char} {txt : List Char} (rep : List Char)
    (h : ∀ ch ∈ txt, lowerAscii ch ≠ '{') :
    reSubCI ('{' :: pat') rep txt = txt :=
  substAux_ci_id rep txt.length txt h

theorem strReplace_id {pat' : List Char} {txt : List Char} (rep : List Char)
    (h : ∀ ch ∈ txt, ch ≠ '<') :
    strReplace ('<' :: pat') rep txt = txt :=
  substAux_plain_id rep txt.length txt h

theorem mem_digitsDotDash_isDigit {c : Char} (h : c ∈ strL "0123456789") :
    c.isDigit = true := by
  simp only [strL, String.data] at h
  fin_cases h <;> decide

theorem pyStrNat_mem (n : Nat) : ∀ c ∈ pyStrNat n, c ∈ strL "0123456789" := by
  intro c hc
  by_cases h : n = 0
  · simp [pyStrNat, h] at hc
    subst hc; decide
  · simp only [pyStrNat, if_neg h, List.mem_map, List.mem_reverse] at hc
    obtain ⟨d, hd, rfl⟩ := hc
    have := decDigitsAux_mem_lt n n d hd
    interval_cases d <;> decide

theorem fmtFixed_mem (q : ℚ) (p : Nat) :
    ∀ ch ∈ fmtFixed q p, ch ∈ strL "0123456789.-" := by
  have base : ∀ (a : ℚ), ∀ ch ∈ fmtFixedN a p, ch ∈ strL "0123456789.-" := by
    intro a ch hch
    simp only [fmtFixedN] at hch
    rcases List.mem_append.mp hch with h | h
    · have := pyStrNat_mem _ _ h
      simp only [strL, String.data] at this ⊢
      fin_cases this <;> decide
    · rcases List.mem_cons.mp h with rfl | h
      · decide
      · have hd := pyStrNat_mem ((roundHalfEven (a * (10 ^ p : ℚ))).toNat % 10 ^ p)
        have hdig : ∀ c ∈ pyStrNat ((roundHalfEven (a * (10 ^ p : ℚ))).toNat % 10 ^ p),
            c.isDigit = true := fun c hc => mem_digitsDotDash_isDigit (hd c hc)
        have := zfill_isDigit p hdig ch h
        rcases zfill_eq_pad (s := pyStrNat ((roundHalfEven (a * (10 ^ p : ℚ))).toNat % 10 ^ p))
          p hdig ▸ h with h'
        rcases List.mem_append.mp h' with h'' | h''
        · rw [List.eq_of_mem_replicate h'']; decide
        · have := hd ch h''
          simp only [strL, String.data] at this ⊢
          fin_cases this <;> decide
  intro ch hch
  simp only [fmtFixed] at hch
  by_cases hq : q < 0
  · rw [if_pos hq] at hch
    rcases List.mem_cons.mp hch with rfl | h
    · decide
    · exact base _ ch h
  · rw [if_neg hq] at hch
    exact base _ ch hch

theorem mem_digitsDotDash_safe {c : Char} (h : c ∈ strL "0123456789.-") :
    c ≠ '<' ∧ lowerAscii c ≠ '{' := by
  simp only [strL, String.data] at h
  fin_cases h <;> exact ⟨by decide, by decide⟩

/-! ### Claims C4 and C5: the placeholder renderer -/

theorem reSubCI_pname_id {rep txt : List Char} (h : ∀ ch ∈ txt, lowerAscii ch ≠ '{') :
    reSubCI (strL "{product_name}") rep txt = txt := reSubCI_id rep h

theorem reSubCI_weight_id {rep txt : List Char} (h : ∀ ch ∈ txt, lowerAscii ch ≠ '{') :
    reSubCI (strL "{weight}") rep txt = txt := reSubCI_id rep h

theorem reSubCI_price_id {rep txt : List Char} (h : ∀ ch ∈ txt, lowerAscii ch ≠ '{') :
    reSubCI (strL "{price_per_lb}") rep txt = txt := reSubCI_id rep h

theorem reSubCI_total_id {rep txt : List Char} (h : ∀ ch ∈ txt, lowerAscii ch ≠ '{') :
    reSubCI (strL "{total_price}") rep txt = txt := reSubCI_id rep h

theorem reSubCI_sellby_id {rep txt : List Char} (h : ∀ ch ∈ txt, lowerAscii ch ≠ '{') :
    reSubCI (strL "{sell_by}") rep txt = txt := reSubCI_id rep h

theorem reSubCI_lot_id {rep txt : List Char} (h : ∀ ch ∈ txt, lowerAscii ch ≠ '{') :
    reSubCI (strL "{lot}") rep txt = txt := reSubCI_id rep h

theorem reSubCI_upc_id {rep txt : List Char} (h : ∀ ch ∈ txt, lowerAscii ch ≠ '{') :
    reSubCI (strL "{upc}") rep txt = txt := reSubCI_id rep h

theorem strReplace_killdate_id {rep txt : List Char} (h : ∀ ch ∈ txt, ch ≠ '<') :
    strReplace (strL "<KillDate>") rep txt = txt := strReplace_id rep h

theorem strReplace_wtlbs_id {rep txt : List Char} (h : ∀ ch ∈ txt, ch ≠ '<') :
    strReplace (strL "<WtLbs>") rep txt = txt := strReplace_id rep h

theorem strReplace_pluwgtser_id {rep txt : List Char} (h : ∀ ch ∈ txt, ch ≠ '<') :
    strReplace (strL "<PluWgtSer>") rep txt = txt := strReplace_id rep h

theorem strReplace_sellby1_id {rep txt : List Char} (h : ∀ ch ∈ txt, ch ≠ '<') :
    strReplace (strL "<SellBy1>") rep txt = txt := strReplace_id rep h

/-- The content record of the worked example, used as a concrete input. -/
def demoContent : Content :=
  { product_name := strL "Chicken Breast", weight := 99/20, price_per_lb := 299/100,
    total_price := 74/5, sell_by := strL "2025-01-01", lot := strL "L1",
    upc := strL "212345014806" }

/-- C4 counterexample: on the template `"<KillDate>"` the renderer
substitutes the lot string (`"L1"`), not the sell-by string
(`"2025-01-01"`), refuting the claimed `<KillDate>` ↦ sell-by mapping. -/
theorem render_prn_killdate_not_sellby :
    render_prn_template (strL "<KillDate>") demoContent = strL "L1" ∧
    demoContent.sell_by = strL "2025-01-01" ∧
    strL "L1" ≠ strL "2025-01-01" := by
  refine ⟨?_, rfl, by decide⟩
  have hk : ∀ ch ∈ strL "<KillDate>", lowerAscii ch ≠ '{' := by decide
  have a1 : strReplace (strL "<KillDate>") (strL "L1") (strL "<KillDate>") = strL "L1" := by
    decide
  have hl : ∀ ch ∈ strL "L1", ch ≠ '<' := by decide
  simp only [render_prn_template, demoContent]
  rw [reSubCI_pname_id hk, reSubCI_weight_id hk, reSubCI_price_id hk,
    reSubCI_total_id hk, reSubCI_sellby_id hk, reSubCI_lot_id hk, reSubCI_upc_id hk,
    a1, strReplace_wtlbs_id hl, strReplace_pluwgtser_id hl, strReplace_sellby1_id hl]

/-- C4 amended: the legacy angle aliases map `<WtLbs>` to the formatted
weight, `<KillDate>` to the lot string, `<PluWgtSer>` to the UPC and
`<SellBy1>` to the sell-by string (for replacement values free of `'<'`,
so later alias passes leave them untouched). -/
theorem render_prn_angle_aliases (c : Content)
    (hlot : ∀ ch ∈ c.lot, ch ≠ '<') (hupc : ∀ ch ∈ c.upc, ch ≠ '<') :
    render_prn_template (strL "<WtLbs>") c = fmtFixed c.weight 3 ∧
    render_prn_template (strL "<KillDate>") c = c.lot ∧
    render_prn_template (strL "<PluWgtSer>") c = c.upc ∧
    render_prn_template (strL "<SellBy1>") c = c.sell_by := by
  have hfmt : ∀ ch ∈ fmtFixed c.weight 3, ch ≠ '<' :=
    fun ch hch => (mem_digitsDotDash_safe (fmtFixed_mem _ _ ch hch)).1
  refine ⟨?_, ?_, ?_, ?_⟩
  · have hw : ∀ ch ∈ strL "<WtLbs>", lowerAscii ch ≠ '{' := by decide
    have k1 : ∀ rep : List Char,
        strReplace (strL "<KillDate>") rep (strL "<WtLbs>") = strL "<WtLbs>" :=
      fun _ => rfl
    have k2 : ∀ rep : List Char,
        strReplace (strL "<WtLbs>") rep (strL "<WtLbs>") = rep ++ [] :=
      fun _ => rfl
    simp only [render_prn_template]
    rw [reSubCI_pname_id hw, reSubCI_weight_id hw, reSubCI_price_id hw,
      reSubCI_total_id hw, reSubCI_sellby_id hw, reSubCI_lot_id hw, reSubCI_upc_id hw,
      k1, k2, List.append_nil, strReplace_pluwgtser_id hfmt, strReplace_sellby1_id hfmt]
  · have hk : ∀ ch ∈ strL "<KillDate>", lowerAscii ch ≠ '{' := by decide
    have k1 : ∀ rep : List Char,
        strReplace (strL "<KillDate>") rep (strL "<KillDate>") = rep ++ [] :=
      fun _ => rfl
    simp only [render_prn_template]
    rw [reSubCI_pname_id hk, reSubCI_weight_id hk, reSubCI_price_id hk,
      reSubCI_total_id hk, reSubCI_sellby_id hk, reSubCI_lot_id hk, reSubCI_upc_id hk,
      k1, List.append_nil, strReplace_wtlbs_id hlot, strReplace_pluwgtser_id hlot,
      strReplace_sellby1_id hlot]
  · have hp : ∀ ch ∈ strL "<PluWgtSer>", lowerAscii ch ≠ '{' := by decide
    have k1 : ∀ rep : List Char,
        strReplace (strL "<KillDate>") rep (strL "<PluWgtSer>") = strL "<PluWgtSer>" :=
      fun _ => rfl
    have k2 : ∀ rep : List Char,
        strReplace (strL "<WtLbs>") rep (strL "<PluWgtSer>") = strL "<PluWgtSer>" :=
      fun _ => rfl
    have k3 : ∀ rep : List Char,
        strReplace (strL "<PluWgtSer>") rep (strL "<PluWgtSer>") = rep ++ [] :=
      fun _ => rfl
    simp only [render_prn_template]
    rw [reSubCI_pname_id hp, reSubCI_weight_id hp, reSubCI_price_id hp,
      reSubCI_total_id hp, reSubCI_sellby_id hp, reSubCI_lot_id hp, reSubCI_upc_id hp,
      k1, k2, k3, List.append_nil, strReplace_sellby1_id hupc]
  · have hs : ∀ ch ∈ strL "<SellBy1>", lowerAscii ch ≠ '{' := by decide
    have k1 : ∀ rep : List Char,
        strReplace (strL "<KillDate>") rep (strL "<SellBy1>") = strL "<SellBy1>" :=
      fun _ => rfl
    have k2 : ∀ rep : List Char,
        strReplace (strL "<WtLbs>") rep (strL "<SellBy1>") = strL "<SellBy1>" :=
      fun _ => rfl
    have k3 : ∀ rep : List Char,
        strReplace (strL "<PluWgtSer>") rep (strL "<SellBy1>") = strL "<SellBy1>" :=
      fun _ => rfl
    have k4 : ∀ rep : List Char,
        strReplace (strL "<SellBy1>") rep (strL "<SellBy1>") = rep ++ [] :=
      fun _ => rfl
    simp only [render_prn_template]
    rw [reSubCI_pname_id hs, reSubCI_weight_id hs, reSubCI_price_id hs,
      reSubCI_total_id hs, reSubCI_sellby_id hs, reSubCI_lot_id hs, reSubCI_upc_id hs,
      k1, k2, k3, k4, List.append_nil]

/-- C4 amended witness: the alias theorem applied at the worked-example
content, whose lot and UPC strings contain no `'<'`. -/
theorem render_prn_angle_aliases_witness :
    render_prn_template (strL "<WtLbs>") demoContent = fmtFixed demoContent.weight 3 ∧
    render_prn_template (strL "<KillDate>") demoContent = demoContent.lot ∧
    render_prn_template (strL "<PluWgtSer>") demoContent = demoContent.upc ∧
    render_prn_template (strL "<SellBy1>") demoContent = demoContent.sell_by :=
  render_prn_angle_aliases demoContent (by decide) (by decide)

/-! ### Placeholder occurrences and template decompositions (for C5)

`curlyPatterns`/`anglePatterns` name the renderer's eleven patterns in
substitution order; `hasCIMatch`/`hasPlainMatch` decide whether a
pattern matches anywhere in a text; `PrnTok` decomposes a template into
literal segments (including unknown placeholders) and occurrences of
mapped keys. -/

/-- The seven curly placeholder patterns, in substitution order. -/
def curlyPatterns : List (List Char) :=
  [strL "{product_name}", strL "{weight}", strL "{price_per_lb}", strL "{total_price}",
   strL "{sell_by}", strL "{lot}", strL "{upc}"]

/-- The four legacy angle aliases, in substitution order. -/
def anglePatterns : List (List Char) :=
  [strL "<KillDate>", strL "<WtLbs>", strL "<PluWgtSer>", strL "<SellBy1>"]

/-- Does the pattern match case-insensitively at some position? -/
def hasCIMatch (pat : List Char) : List Char → Bool
  | [] => false
  | c :: cs => matchLower pat (c :: cs) || hasCIMatch pat cs

/-- Does the pattern match case-sensitively at some position? -/
def hasPlainMatch (pat : List Char) : List Char → Bool
  | [] => false
  | c :: cs => List.isPrefixOf pat (c :: cs) || hasPlainMatch pat cs

/-- The k-th curly pattern. -/
def curlyPat (i : Fin 7) : List Char := curlyPatterns.get (Fin.cast (by rfl) i)

/-- The replacement value the renderer substitutes for the k-th key. -/
def curlyVal (c : Content) (i : Fin 7) : List Char :=
  [c.product_name, fmtFixed c.weight 3, fmtFixed c.price_per_lb 2,
   fmtFixed c.total_price 2, c.sell_by, c.lot, c.upc].get (Fin.cast (by rfl) i)

/-- A template segment: a literal run (possibly an unknown placeholder)
or an occurrence of the i-th mapped key, in arbitrary case. -/
inductive PrnTok where
  | lit : List Char → PrnTok
  | key : Fin 7 → List Char → PrnTok

/-- The text of a segment. -/
def tokStr : PrnTok → List Char
  | .lit s => s
  | .key _ s => s

/-- The text of a segment after substitution: key occurrences become
their replacement values, literals stay verbatim. -/
def tokSub (c : Content) : PrnTok → List Char
  | .lit s => s
  | .key i _ => curlyVal c i

/-- A literal segment no curly pass can match into: free of `'<'`,
with `'{'` possible only as its first character, at which no mapped
key pattern matches. -/
def litOK (s : List Char) : Prop :=
  '<' ∉ s ∧ (∀ ch ∈ s.drop 1, ch ≠ '{') ∧
    (s ≠ [] → ∀ i : Fin 7, matchLower ((curlyPat i).take s.length) s = false)

/-- Well-formedness of a segment: literals are safe, key segments
lower to their pattern. -/
def tokOK (_c : Content) : PrnTok → Prop
  | .lit s => litOK s
  | .key i s => s.map lowerAscii = curlyPat i

/-- The substitution values introduce no new placeholder or alias
starts (no braces, no angle brackets). -/
def contentSafe (c : Content) : Prop :=
  ∀ i : Fin 7, '{' ∉ curlyVal c i ∧ '<' ∉ curlyVal c i

/-- The effect of the pass for key `j` on a segment. -/
def passTok (c : Content) (j : Fin 7) : PrnTok → PrnTok
  | .lit s => .lit s
  | .key i s => if i = j then .lit (curlyVal c j) else .key i s

theorem eq_cons_of_headEq {l : List Char} {a : Char} (h : l.head? = some a) :
    l = a :: l.tail := by
  cases l <;> simp_all

theorem lowerAscii_ne_lbrace {c : Char} (h : c ≠ '{') : lowerAscii c ≠ '{' := by
  unfold lowerAscii
  by_cases hb : 65 ≤ c.toNat ∧ c.toNat ≤ 90
  · rw [if_pos hb]
    have haux : ∀ n : Nat, 65 ≤ n → n ≤ 90 → Char.ofNat (n + 32) ≠ '{' := by
      intro n h1 h2
      interval_cases n <;> decide
    exact haux c.toNat hb.1 hb.2
  · rw [if_neg hb]
    exact h

theorem matchLower_head_false {p c : Char} {ps cs : List Char}
    (h : lowerAscii c ≠ p) : matchLower (p :: ps) (c :: cs) = false := by
  simp [matchLower, h]

theorem matchLower_append_false :
    ∀ (s pat rest : List Char),
      matchLower (pat.take s.length) s = false → matchLower pat (s ++ rest) = false := by
  intro s
  induction s with
  | nil => intro pat rest h; simp [matchLower] at h
  | cons a s2 ih =>
      intro pat rest h
      match pat with
      | [] => simp [matchLower] at h
      | p :: ps =>
          rw [List.length_cons, List.take_succ_cons] at h
          by_cases hh : lowerAscii a = p
          · have htl : matchLower (ps.take s2.length) s2 = false := by
              simp [matchLower, hh] at h
              exact h
            rw [List.cons_append]
            simp [matchLower, ih ps rest htl]
          · rw [List.cons_append]
            exact matchLower_head_false hh

theorem matchLower_of_map_eq :
    ∀ (s pat rest : List Char), s.map lowerAscii = pat →
      matchLower pat (s ++ rest) = true := by
  intro s
  induction s with
  | nil => intro pat rest h; rw [← h]; rfl
  | cons a s2 ih =>
      intro pat rest h
      rw [← h]
      simp only [List.map_cons, List.cons_append]
      simp [matchLower, ih (s2.map lowerAscii) rest rfl]

theorem matchLower_true_iff :
    ∀ (pat s : List Char), matchLower pat s = true ↔ pat <+: s.map lowerAscii := by
  intro pat
  induction pat with
  | nil => intro s; simp [matchLower]
  | cons p ps ih =>
      intro s
      cases s with
      | nil => simp [matchLower]
      | cons a s2 =>
          simp only [List.map_cons, List.cons_prefix_cons, matchLower]
          rw [Bool.and_eq_true, decide_eq_true_iff, ih s2]
          constructor
          · rintro ⟨h1, h2⟩; exact ⟨h1.symm, h2⟩
          · rintro ⟨h1, h2⟩; exact ⟨h1.symm, h2⟩

theorem substAux_fuel_irrel (ci : Bool) (pat rep : List Char) :
    ∀ (f1 : Nat) (t : List Char) (f2 : Nat), t.length ≤ f1 → t.length ≤ f2 →
      substAux ci pat rep f1 t = substAux ci pat rep f2 t := by
  intro f1
  induction f1 with
  | zero =>
      intro t f2 h1 _
      have : t = [] := List.eq_nil_of_length_eq_zero (Nat.le_zero.mp h1)
      subst this
      cases f2 <;> rfl
  | succ f1 ih =>
      intro t f2 h1 h2
      cases t with
      | nil => cases f2 <;> rfl
      | cons c rest =>
          match f2 with
          | 0 => exact absurd h2 (by simp)
          | f3 + 1 =>
              simp only [substAux]
              by_cases hh : (if ci then matchLower pat (c :: rest)
                  else List.isPrefixOf pat (c :: rest)) = true
              · rw [if_pos hh, if_pos hh]
                congr 1
                have hdl : (List.drop (pat.length - 1) rest).length ≤ rest.length := by
                  rw [List.length_drop]; omega
                have hr : rest.length ≤ f1 := by
                  simp only [List.length_cons] at h1; omega
                have hr3 : rest.length ≤ f3 := by
                  simp only [List.length_cons] at h2; omega
                exact ih _ f3 (le_trans hdl hr) (le_trans hdl hr3)
              · rw [if_neg hh, if_neg hh]
                congr 1
                have hr : rest.length ≤ f1 := by
                  simp only [List.length_cons] at h1; omega
                have hr3 : rest.length ≤ f3 := by
                  simp only [List.length_cons] at h2; omega
                exact ih _ f3 hr hr3

theorem reSubCI_cons_of_no_match {pat v : List Char} {a : Char} {t : List Char}
    (hm : matchLower pat (a :: t) = false) :
    reSubCI pat v (a :: t) = a :: reSubCI pat v t := by
  simp only [reSubCI, List.length_cons, substAux, hm, Bool.false_eq_true, if_true, if_false]

theorem strReplace_cons_of_no_match {pat v : List Char} {a : Char} {t : List Char}
    (hm : List.isPrefixOf pat (a :: t) = false) :
    strReplace pat v (a :: t) = a :: strReplace pat v t := by
  simp only [strReplace, List.length_cons, substAux, hm, Bool.false_eq_true, if_true, if_false]

theorem reSubCI_id_no_occ {pat v : List Char} :
    ∀ {txt : List Char}, hasCIMatch pat txt = false → reSubCI pat v txt = txt := by
  intro txt
  induction txt with
  | nil => intro _; rfl
  | cons a rest ih =>
      intro h
      rw [hasCIMatch, Bool.or_eq_false_iff] at h
      rw [reSubCI_cons_of_no_match h.1, ih h.2]

theorem strReplace_id_no_occ {pat v : List Char} :
    ∀ {txt : List Char}, hasPlainMatch pat txt = false → strReplace pat v txt = txt := by
  intro txt
  induction txt with
  | nil => intro _; rfl
  | cons a rest ih =>
      intro h
      rw [hasPlainMatch, Bool.or_eq_false_iff] at h
      rw [strReplace_cons_of_no_match h.1, ih h.2]

theorem curlyPat_head (i : Fin 7) : (curlyPat i).head? = some '{' := by
  fin_cases i <;> rfl

theorem curlyPat_ne_nil (i : Fin 7) : curlyPat i ≠ [] := by
  fin_cases i <;> decide

theorem curlyPat_drop_no_lbrace (i : Fin 7) : '{' ∉ (curlyPat i).drop 1 := by
  fin_cases i <;> decide

theorem curlyPat_no_lt (i : Fin 7) : '<' ∉ curlyPat i := by
  fin_cases i <;> decide

theorem key_cross_false {i j : Fin 7} (hne : i ≠ j) {s : List Char}
    (hs : s.map lowerAscii = curlyPat i) :
    matchLower ((curlyPat j).take s.length) s = false := by
  have hlen : s.length = (curlyPat i).length := by
    rw [← hs, List.length_map]
  by_contra hb
  rw [Bool.not_eq_false, matchLower_true_iff, hs, hlen] at hb
  have hall : ∀ i2 j2 : Fin 7, i2 ≠ j2 →
      ¬ ((curlyPat j2).take (curlyPat i2).length <+: curlyPat i2) := by decide
  exact hall i j hne hb

theorem reSubCI_append_safe {pat : List Char} (hp : pat.head? = some '{') (v : List Char) :
    ∀ (s T : List Char), (∀ ch ∈ s, ch ≠ '{') →
      reSubCI pat v (s ++ T) = s ++ reSubCI pat v T := by
  intro s
  induction s with
  | nil => intro T _; rfl
  | cons a s2 ih =>
      intro T h
      have ha : lowerAscii a ≠ '{' := lowerAscii_ne_lbrace (h a (List.mem_cons_self _ _))
      have hm : matchLower pat (a :: (s2 ++ T)) = false := by
        rw [eq_cons_of_headEq hp]
        exact matchLower_head_false ha
      rw [List.cons_append, reSubCI_cons_of_no_match hm,
        ih T (fun x hx => h x (List.mem_cons_of_mem _ hx)), List.cons_append]

theorem reSubCI_append_lit {pat : List Char} (hp : pat.head? = some '{') (v : List Char)
    (s T : List Char) (hd : ∀ ch ∈ s.drop 1, ch ≠ '{')
    (h0 : matchLower (pat.take s.length) s = false ∨ s = []) :
    reSubCI pat v (s ++ T) = s ++ reSubCI pat v T := by
  cases s with
  | nil => rfl
  | cons a s2 =>
      rcases h0 with h0 | h0
      · have hm : matchLower pat ((a :: s2) ++ T) = false :=
          matchLower_append_false (a :: s2) pat T h0
        rw [List.cons_append] at hm
        rw [List.cons_append, reSubCI_cons_of_no_match hm,
          reSubCI_append_safe hp v s2 T (by simpa using hd), List.cons_append]
      · cases h0

theorem reSubCI_append_key {pat v : List Char} (hpat : pat ≠ []) {s : List Char}
    (T : List Char) (hs : s.map lowerAscii = pat) :
    reSubCI pat v (s ++ T) = v ++ reSubCI pat v T := by
  cases s with
  | nil => exact absurd hs.symm hpat
  | cons a s2 =>
      have hm : matchLower pat (a :: (s2 ++ T)) = true := by
        have := matchLower_of_map_eq (a :: s2) pat T hs
        rwa [List.cons_append] at this
      have hlen : pat.length - 1 = s2.length := by
        rw [← hs]; simp
      show substAux true pat v ((a :: s2) ++ T).length ((a :: s2) ++ T) = _
      rw [List.cons_append]
      simp only [List.length_cons, substAux, hm, if_true]
      rw [hlen, List.drop_left' rfl]
      congr 1
      exact substAux_fuel_irrel true pat v _ T T.length
        (by rw [List.length_append]; omega) le_rfl

theorem litOK_of_safe {s : List Char} (h1 : '{' ∉ s) (h2 : '<' ∉ s) : litOK s := by
  refine ⟨h2, fun ch hch he => h1 (he ▸ List.mem_of_mem_drop hch), ?_⟩
  intro hne j
  match s, hne with
  | a :: s2, _ =>
      have ha : a ≠ '{' := fun he => h1 (he ▸ List.mem_cons_self _ _)
      rw [eq_cons_of_headEq (curlyPat_head j), List.length_cons, List.take_succ_cons]
      exact matchLower_head_false (lowerAscii_ne_lbrace ha)

theorem tokOK_no_lt {c : Content} {t : PrnTok} (h : tokOK c t) :
    ∀ ch ∈ tokStr t, ch ≠ '<' := by
  cases t with
  | lit s => exact fun ch hch he => h.1 (he ▸ hch)
  | key i s =>
      intro ch hch he
      subst he
      have hmem : lowerAscii '<' ∈ s.map lowerAscii := List.mem_map_of_mem _ hch
      rw [h, show lowerAscii '<' = '<' from by decide] at hmem
      exact curlyPat_no_lt i hmem

theorem toks_no_lt {c : Content} :
    ∀ toks : List PrnTok, (∀ t ∈ toks, tokOK c t) →
      ∀ ch ∈ (toks.map tokStr).flatten, ch ≠ '<' := by
  intro toks h ch hch
  rcases List.mem_flatten.mp hch with ⟨l, hl, hchl⟩
  rcases List.mem_map.mp hl with ⟨t, htm, rfl⟩
  exact tokOK_no_lt (h t htm) ch hchl

theorem passTok_WF {c : Content} (hc : contentSafe c) (j : Fin 7) :
    ∀ toks : List PrnTok, (∀ t ∈ toks, tokOK c t) →
      ∀ t ∈ toks.map (passTok c j), tokOK c t := by
  intro toks h t ht
  rcases List.mem_map.mp ht with ⟨t0, ht0, rfl⟩
  have h0 := h t0 ht0
  cases t0 with
  | lit s => exact h0
  | key i s =>
      by_cases hij : i = j
      · subst hij
        simp only [passTok, if_pos rfl]
        exact litOK_of_safe (hc i).1 (hc i).2
      · simp only [passTok, if_neg hij]
        exact h0

theorem reSubCI_pass (c : Content) (j : Fin 7) :
    ∀ toks : List PrnTok, (∀ t ∈ toks, tokOK c t) →
      reSubCI (curlyPat j) (curlyVal c j) ((toks.map tokStr).flatten) =
        (((toks.map (passTok c j)).map tokStr)).flatten := by
  intro toks
  induction toks with
  | nil => intro _; rfl
  | cons t rest ih =>
      intro h
      have ht := h t (List.mem_cons_self _ _)
      have hrest := fun x hx => h x (List.mem_cons_of_mem _ hx)
      cases t with
      | lit s =>
          show reSubCI (curlyPat j) (curlyVal c j) (s ++ (rest.map tokStr).flatten) =
            s ++ (((rest.map (passTok c j)).map tokStr)).flatten
          obtain ⟨hlt, hdrop, htake⟩ := ht
          have h0 : matchLower ((curlyPat j).take s.length) s = false ∨ s = [] := by
            cases s with
            | nil => exact Or.inr rfl
            | cons a s2 => exact Or.inl (htake (by simp) j)
          rw [reSubCI_append_lit (curlyPat_head j) _ s _ hdrop h0, ih hrest]
      | key i s =>
          by_cases hij : i = j
          · subst hij
            show reSubCI (curlyPat i) (curlyVal c i) (s ++ (rest.map tokStr).flatten) = _
            rw [reSubCI_append_key (curlyPat_ne_nil i) _ ht, ih hrest]
            simp [passTok, tokStr]
          · show reSubCI (curlyPat j) (curlyVal c j) (s ++ (rest.map tokStr).flatten) = _
            have hdrop : ∀ ch ∈ s.drop 1, ch ≠ '{' := by
              intro ch hch he
              subst he
              have hmem : lowerAscii '{' ∈ (s.drop 1).map lowerAscii :=
                List.mem_map_of_mem _ hch
              rw [List.map_drop, ht, show lowerAscii '{' = '{' from by decide] at hmem
              exact curlyPat_drop_no_lbrace i hmem
            rw [reSubCI_append_lit (curlyPat_head j) _ s _ hdrop
              (Or.inl (key_cross_false hij ht)), ih hrest]
            simp [passTok, hij, tokStr]

/-- C5: for every template text and content record the renderer is
total and leaves unmapped material verbatim: any template in which no
mapped curly key (case-insensitively) and no angle alias occurs is
returned unchanged — in particular `{unknown_field}` survives for every
content; and on any template decomposed into literal segments and
mapped-key occurrences (in arbitrary case), with substitution values
free of `'{'`/`'<'`, every occurrence of every mapped key is
substituted and every literal segment is left verbatim; the worked
example exercises all seven keys concretely, one of them twice and in
upper case. -/
theorem render_prn_placeholders :
    (∀ (txt : List Char) (c : Content),
      (∀ pat ∈ curlyPatterns, hasCIMatch pat txt = false) →
      (∀ pat ∈ anglePatterns, hasPlainMatch pat txt = false) →
      render_prn_template txt c = txt) ∧
    (∀ c : Content,
      render_prn_template (strL "{unknown_field}") c = strL "{unknown_field}") ∧
    (∀ (c : Content) (toks : List PrnTok), contentSafe c → (∀ t ∈ toks, tokOK c t) →
      render_prn_template ((toks.map tokStr).flatten) c =
        (toks.map (tokSub c)).flatten) ∧
    render_prn_template
      (strL "{Product_Name}|{WEIGHT}|{weight}|{price_per_lb}|{total_price}|{sell_by}|{lot}|{upc}|{unknown_field}")
      demoContent =
      strL "Chicken Breast|4.950|4.950|2.99|14.80|2025-01-01|L1|212345014806|{unknown_field}" := by
  have partA : ∀ (txt : List Char) (c : Content),
      (∀ pat ∈ curlyPatterns, hasCIMatch pat txt = false) →
      (∀ pat ∈ anglePatterns, hasPlainMatch pat txt = false) →
      render_prn_template txt c = txt := by
    intro txt c hcur hang
    simp only [render_prn_template]
    rw [reSubCI_id_no_occ (hcur _ (by simp [curlyPatterns])),
      reSubCI_id_no_occ (hcur _ (by simp [curlyPatterns])),
      reSubCI_id_no_occ (hcur _ (by simp [curlyPatterns])),
      reSubCI_id_no_occ (hcur _ (by simp [curlyPatterns])),
      reSubCI_id_no_occ (hcur _ (by simp [curlyPatterns])),
      reSubCI_id_no_occ (hcur _ (by simp [curlyPatterns])),
      reSubCI_id_no_occ (hcur _ (by simp [curlyPatterns])),
      strReplace_id_no_occ (hang _ (by simp [anglePatterns])),
      strReplace_id_no_occ (hang _ (by simp [anglePatterns])),
      strReplace_id_no_occ (hang _ (by simp [anglePatterns])),
      strReplace_id_no_occ (hang _ (by simp [anglePatterns]))]
  refine ⟨partA, fun c => partA _ c (by decide) (by decide), ?_, ?_⟩
  · intro c toks hc htoks
    have w0 := htoks
    have w1 := passTok_WF hc 0 toks w0
    have w2 := passTok_WF hc 1 _ w1
    have w3 := passTok_WF hc 2 _ w2
    have w4 := passTok_WF hc 3 _ w3
    have w5 := passTok_WF hc 4 _ w4
    have w6 := passTok_WF hc 5 _ w5
    have w7 := passTok_WF hc 6 _ w6
    have e1 : reSubCI (strL "{product_name}") (c.product_name)
        ((toks.map tokStr).flatten) =
        (((toks.map (passTok c 0)).map tokStr).flatten) :=
      reSubCI_pass c 0 _ w0
    have e2 : reSubCI (strL "{weight}") (fmtFixed c.weight 3)
        (((toks.map (passTok c 0)).map tokStr).flatten) =
        ((((toks.map (passTok c 0)).map (passTok c 1)).map tokStr).flatten) :=
      reSubCI_pass c 1 _ w1
    have e3 : reSubCI (strL "{price_per_lb}") (fmtFixed c.price_per_lb 2)
        ((((toks.map (passTok c 0)).map (passTok c 1)).map tokStr).flatten) =
        (((((toks.map (passTok c 0)).map (passTok c 1)).map (passTok c 2)).map tokStr).flatten) :=
      reSubCI_pass c 2 _ w2
    have e4 : reSubCI (strL "{total_price}") (fmtFixed c.total_price 2)
        (((((toks.map (passTok c 0)).map (passTok c 1)).map (passTok c 2)).map tokStr).flatten) =
        ((((((toks.map (passTok c 0)).map (passTok c 1)).map (passTok c 2)).map (passTok c 3)).map tokStr).flatten) :=
      reSubCI_pass c 3 _ w3
    have e5 : reSubCI (strL "{sell_by}") (c.sell_by)
        ((((((toks.map (passTok c 0)).map (passTok c 1)).map (passTok c 2)).map (passTok c 3)).map tokStr).flatten) =
        (((((((toks.map (passTok c 0)).map (passTok c 1)).map (passTok c 2)).map (passTok c 3)).map (passTok c 4)).map tokStr).flatten) :=
      reSubCI_pass c 4 _ w4
    have e6 : reSubCI (strL "{lot}") (c.lot)
        (((((((toks.map (passTok c 0)).map (passTok c 1)).map (passTok c 2)).map (passTok c 3)).map (passTok c 4)).map tokStr).flatten) =
        ((((((((toks.map (passTok c 0)).map (passTok c 1)).map (passTok c 2)).map (passTok c 3)).map (passTok c 4)).map (passTok c 5)).map tokStr).flatten) :=
      reSubCI_pass c 5 _ w5
    have e7 : reSubCI (strL "{upc}") (c.upc)
        ((((((((toks.map (passTok c 0)).map (passTok c 1)).map (passTok c 2)).map (passTok c 3)).map (passTok c 4)).map (passTok c 5)).map tokStr).flatten) =
        (((((((((toks.map (passTok c 0)).map (passTok c 1)).map (passTok c 2)).map (passTok c 3)).map (passTok c 4)).map (passTok c 5)).map (passTok c 6)).map tokStr).flatten) :=
      reSubCI_pass c 6 _ w6
    have hlt := toks_no_lt _ w7
    simp only [render_prn_template]
    rw [e1, e2, e3, e4, e5, e6, e7,
      strReplace_killdate_id hlt, strReplace_wtlbs_id hlt,
      strReplace_pluwgtser_id hlt, strReplace_sellby1_id hlt]
    congr 1
    simp only [List.map_map]
    congr 1
    funext t
    cases t with
    | lit s => rfl
    | key i s => fin_cases i <;> rfl
  · have h3 : fmtFixed ((99:ℚ)/20) 3 = strL "4.950" := by
      norm_num [fmtFixed, fmtFixedN, roundHalfEven]
      decide
    have hp : fmtFixed ((299:ℚ)/100) 2 = strL "2.99" := by
      norm_num [fmtFixed, fmtFixedN, roundHalfEven]
      decide
    have ht : fmtFixed ((74:ℚ)/5) 2 = strL "14.80" := by
      norm_num [fmtFixed, fmtFixedN, roundHalfEven]
      decide
    have s1 : reSubCI (strL "{product_name}") (strL "Chicken Breast")
        (strL "{Product_Name}|{WEIGHT}|{weight}|{price_per_lb}|{total_price}|{sell_by}|{lot}|{upc}|{unknown_field}") =
        strL "Chicken Breast|{WEIGHT}|{weight}|{price_per_lb}|{total_price}|{sell_by}|{lot}|{upc}|{unknown_field}" := by
      decide
    have s2 : reSubCI (strL "{weight}") (strL "4.950")
        (strL "Chicken Breast|{WEIGHT}|{weight}|{price_per_lb}|{total_price}|{sell_by}|{lot}|{upc}|{unknown_field}") =
        strL "Chicken Breast|4.950|4.950|{price_per_lb}|{total_price}|{sell_by}|{lot}|{upc}|{unknown_field}" := by
      decide
    have s3 : reSubCI (strL "{price_per_lb}") (strL "2.99")
        (strL "Chicken Breast|4.950|4.950|{price_per_lb}|{total_price}|{sell_by}|{lot}|{upc}|{unknown_field}") =
        strL "Chicken Breast|4.950|4.950|2.99|{total_price}|{sell_by}|{lot}|{upc}|{unknown_field}" := by
      decide
    have s4 : reSubCI (strL "{total_price}") (strL "14.80")
        (strL "Chicken Breast|4.950|4.950|2.99|{total_price}|{sell_by}|{lot}|{upc}|{unknown_field}") =
        strL "Chicken Breast|4.950|4.950|2.99|14.80|{sell_by}|{lot}|{upc}|{unknown_field}" := by
      decide
    have s5 : reSubCI (strL "{sell_by}") (strL "2025-01-01")
        (strL "Chicken Breast|4.950|4.950|2.99|14.80|{sell_by}|{lot}|{upc}|{unknown_field}") =
        strL "Chicken Breast|4.950|4.950|2.99|14.80|2025-01-01|{lot}|{upc}|{unknown_field}" := by
      decide
    have s6 : reSubCI (strL "{lot}") (strL "L1")
        (strL "Chicken Breast|4.950|4.950|2.99|14.80|2025-01-01|{lot}|{upc}|{unknown_field}") =
        strL "Chicken Breast|4.950|4.950|2.99|14.80|2025-01-01|L1|{upc}|{unknown_field}" := by
      decide
    have s7 : reSubCI (strL "{upc}") (strL "212345014806")
        (strL "Chicken Breast|4.950|4.950|2.99|14.80|2025-01-01|L1|{upc}|{unknown_field}") =
        strL "Chicken Breast|4.950|4.950|2.99|14.80|2025-01-01|L1|212345014806|{unknown_field}" := by
      decide
    have hnl : ∀ ch ∈
        strL "Chicken Breast|4.950|4.950|2.99|14.80|2025-01-01|L1|212345014806|{unknown_field}",
        ch ≠ '<' := by decide
    simp only [render_prn_template, demoContent]
    rw [h3, hp, ht, s1, s2, s3, s4, s5, s6, s7, strReplace_killdate_id hnl,
      strReplace_wtlbs_id hnl, strReplace_pluwgtser_id hnl, strReplace_sellby1_id hnl]

/-- C5 witness: the universal conjuncts applied concretely — an
unknown-token template survives verbatim, and a template decomposed as
literal / upper-case total-price key / literal / unknown placeholder is
substituted segment-wise at the worked-example content. -/
theorem render_prn_placeholders_witness :
    render_prn_template (strL "{mystery_token} plain") demoContent =
      strL "{mystery_token} plain" ∧
    render_prn_template
      (([PrnTok.lit (strL "Price "), PrnTok.key 3 (strL "{Total_Price}"),
         PrnTok.lit (strL " "), PrnTok.lit (strL "{unknown_field}")].map tokStr).flatten)
      demoContent =
      ([PrnTok.lit (strL "Price "), PrnTok.key 3 (strL "{Total_Price}"),
        PrnTok.lit (strL " "), PrnTok.lit (strL "{unknown_field}")].map
          (tokSub demoContent)).flatten := by
  constructor
  · exact render_prn_placeholders.1 _ demoContent (by decide) (by decide)
  · apply render_prn_placeholders.2.2.1
    · have h3 : fmtFixed demoContent.weight 3 = strL "4.950" := by
        norm_num [demoContent, fmtFixed, fmtFixedN, roundHalfEven]
        decide
      have hp2 : fmtFixed demoContent.price_per_lb 2 = strL "2.99" := by
        norm_num [demoContent, fmtFixed, fmtFixedN, roundHalfEven]
        decide
      have ht2 : fmtFixed demoContent.total_price 2 = strL "14.80" := by
        norm_num [demoContent, fmtFixed, fmtFixedN, roundHalfEven]
        decide
      intro i
      fin_cases i
      · decide
      · show '{' ∉ fmtFixed demoContent.weight 3 ∧ '<' ∉ fmtFixed demoContent.weight 3
        rw [h3]
        decide
      · show '{' ∉ fmtFixed demoContent.price_per_lb 2 ∧
          '<' ∉ fmtFixed demoContent.price_per_lb 2
        rw [hp2]
        decide
      · show '{' ∉ fmtFixed demoContent.total_price 2 ∧
          '<' ∉ fmtFixed demoContent.total_price 2
        rw [ht2]
        decide
      · decide
      · decide
      · decide
    · intro t ht
      fin_cases ht <;> simp only [tokOK, litOK] <;> decide

/-! ### Claim C7: the three renderers agree on the total-price string -/

theorem mem_infix_joinNL : ∀ (L : List (List Char)) (x : List Char),
    x ∈ L → x <:+: joinNL L
  | [], x, h => by cases h
  | [l], x, h => by
      rcases List.mem_singleton.mp h with rfl
      exact List.infix_refl _
  | l :: m :: rest, x, h => by
      rcases List.mem_cons.mp h with rfl | h
      · exact ⟨[], '\n' :: joinNL (m :: rest), by simp [joinNL]⟩
      · have hx := mem_infix_joinNL (m :: rest) x h
        have hsuf : joinNL (m :: rest) <:+ l ++ '\n' :: joinNL (m :: rest) :=
          ((List.suffix_cons '\n' _).trans (List.suffix_append l _))
        exact hx.trans hsuf.isInfix

/-- C7: for every content record, the vector renderer's drawn strings,
the placeholder renderer fed the natural total-price line, and the
Datamax command stream all contain the identically formatted
total-price string `"Total: $" ++ format(total, 2)`. -/
theorem renderers_total_price_agree (c : Content) :
    (strL "Total: $" ++ fmtFixed c.total_price 2) ∈
      generate_label_pdf_texts default_2x2 c ∧
    render_prn_template (strL "Total: ${total_price}") c =
      strL "Total: $" ++ fmtFixed c.total_price 2 ∧
    (strL "Total: $" ++ fmtFixed c.total_price 2) <:+:
      generate_datamax_from_template default_2x2 c 203 := by
  have hf : ({ name := strL "total_price", x := 1/10, y := 13/20, size := 12,
               width := 0, height := 3/10 } : Field) ∈ default_2x2.fields := by
    simp [default_2x2]
  refine ⟨?_, ?_, ?_⟩
  · exact List.mem_map_of_mem _ hf
  · have hsafe : ∀ ch ∈ strL "Total: $" ++ fmtFixed c.total_price 2,
        lowerAscii ch ≠ '{' ∧ ch ≠ '<' := by
      intro ch hch
      rcases List.mem_append.mp hch with h | h
      · fin_cases h <;> exact ⟨by decide, by decide⟩
      · have h2 := mem_digitsDotDash_safe (fmtFixed_mem _ _ ch h)
        exact ⟨h2.2, h2.1⟩
    have u1 : ∀ rep : List Char,
        reSubCI (strL "{product_name}") rep (strL "Total: ${total_price}") =
          strL "Total: ${total_price}" := fun _ => rfl
    have u2 : ∀ rep : List Char,
        reSubCI (strL "{weight}") rep (strL "Total: ${total_price}") =
          strL "Total: ${total_price}" := fun _ => rfl
    have u3 : ∀ rep : List Char,
        reSubCI (strL "{price_per_lb}") rep (strL "Total: ${total_price}") =
          strL "Total: ${total_price}" := fun _ => rfl
    have u4 : ∀ rep : List Char,
        reSubCI (strL "{total_price}") rep (strL "Total: ${total_price}") =
          strL "Total: $" ++ (rep ++ []) := fun _ => rfl
    simp only [render_prn_template]
    rw [u1, u2, u3, u4, List.append_nil,
      reSubCI_sellby_id (fun ch hch => (hsafe ch hch).1),
      reSubCI_lot_id (fun ch hch => (hsafe ch hch).1),
      reSubCI_upc_id (fun ch hch => (hsafe ch hch).1),
      strReplace_killdate_id (fun ch hch => (hsafe ch hch).2),
      strReplace_wtlbs_id (fun ch hch => (hsafe ch hch).2),
      strReplace_pluwgtser_id (fun ch hch => (hsafe ch hch).2),
      strReplace_sellby1_id (fun ch hch => (hsafe ch hch).2)]
  · have h1 : (strL "Total: $" ++ fmtFixed c.total_price 2) <:+:
        datamaxFieldLine c 203 { name := strL "total_price", x := 1/10, y := 13/20,
                                 size := 12, width := 0, height := 3/10 } :=
      ⟨strL "A" ++ pyStrInt (inches_to_dots (1/10) 203) ++ strL "," ++
        pyStrInt (inches_to_dots (13/20) 203) ++ strL ",0,3,1,1,N,\"",
       strL "\"", rfl⟩
    have h2 : datamaxFieldLine c 203 { name := strL "total_price", x := 1/10, y := 13/20,
                                        size := 12, width := 0, height := 3/10 } ∈
        ([strL "N",
          'q' :: pyStrInt (inches_to_dots default_2x2.size_w 203),
          'Q' :: pyStrInt (inches_to_dots default_2x2.size_h 203) ++ strL ",24"]
          ++ default_2x2.fields.map (datamaxFieldLine c 203)
          ++ [strL "P1"]) :=
      List.mem_append_left _ (List.mem_append_right _ (List.mem_map_of_mem _ hf))
    exact h1.trans (mem_infix_joinNL _ _ h2)

/-! ### Claims C6, C8, C9, C10: the weight source -/

theorem trigger_accept {f : ℚ → Except String Unit} {s : ScaleInterface} {now w : ℚ}
    (h : 6/5 ≤ now - s.last_trigger) :
    ScaleInterface.trigger (some f) s now w = ({ s with last_trigger := now }, 1) := by
  simp only [ScaleInterface.trigger, if_neg (not_lt.mpr h)]
  cases f w <;> rfl

theorem trigger_drop {cb : Option (ℚ → Except String Unit)} {s : ScaleInterface}
    {now w : ℚ} (h : now - s.last_trigger < 6/5) :
    ScaleInterface.trigger cb s now w = (s, 0) := by
  simp only [ScaleInterface.trigger, if_pos h]

/-- C6: a sample arriving strictly less than 1.2 s after the previously
accepted one is dropped without invoking the callback; a sample 1.2 s
or later is accepted and invokes it; hence two triggers 1.0 s apart
yield exactly one callback and two triggers 1.3 s apart yield two. -/
theorem debounce_trigger (s : ScaleInterface) (f : ℚ → Except String Unit)
    (now w t1 w1 w2 : ℚ) :
    (now - s.last_trigger < 6/5 →
      ScaleInterface.trigger (some f) s now w = (s, 0)) ∧
    (6/5 ≤ now - s.last_trigger →
      ScaleInterface.trigger (some f) s now w = ({ s with last_trigger := now }, 1)) ∧
    (6/5 ≤ t1 - s.last_trigger →
      (runTriggers (some f) s [(t1, w1), (t1 + 1, w2)]).2 = 1 ∧
      (runTriggers (some f) s [(t1, w1), (t1 + 13/10, w2)]).2 = 2) := by
  refine ⟨fun h => trigger_drop h, fun h => trigger_accept h, fun h => ⟨?_, ?_⟩⟩
  · simp only [runTriggers, trigger_accept h]
    rw [trigger_drop (by norm_num)]
    rfl
  · simp only [runTriggers, trigger_accept h]
    rw [trigger_accept (by norm_num)]
    rfl

/-- C6 witness: from the initial state, triggers at times 2 and 3
produce one callback, and triggers at times 2 and 3.3 produce two. -/
theorem debounce_trigger_witness :
    (6/5 ≤ (2 : ℚ) - ScaleInterface.init.last_trigger) ∧
    (runTriggers (some fun _ => .ok ()) ScaleInterface.init [(2, 3), (2 + 1, 4)]).2 = 1 ∧
    (runTriggers (some fun _ => .ok ()) ScaleInterface.init [(2, 3), (2 + 13/10, 4)]).2 = 2 := by
  have h : 6/5 ≤ (2 : ℚ) - ScaleInterface.init.last_trigger := by
    norm_num [ScaleInterface.init]
  have := (debounce_trigger ScaleInterface.init (fun _ => .ok ()) 0 0 2 3 4).2.2 h
  exact ⟨h, this.1, this.2⟩

theorem runOps_append (s : ScaleInterface) (l1 l2 : List ScaleOp) :
    runOps s (l1 ++ l2) = runOps (runOps s l1) l2 := by
  induction l1 generalizing s with
  | nil => rfl
  | cons op rest ih =>
      cases op <;> simp only [List.cons_append, runOps] <;> exact ih _

theorem runOps_threads (ops : List ScaleOp) :
    ∀ s : ScaleInterface, s.threads = (if s.running then 1 else 0) →
      (runOps s ops).threads = (if (runOps s ops).running then 1 else 0) := by
  induction ops with
  | nil => intro s h; exact h
  | cons op rest ih =>
      intro s h
      cases op
      · show (runOps s.start rest).threads = _
        apply ih
        simp only [ScaleInterface.start]
        by_cases hr : s.running
        · simp [hr, h]
        · simp only [if_neg hr, if_pos, if_true]
          simp [hr] at h
          simp [h]
      · show (runOps s.stop rest).threads = _
        apply ih
        simp only [ScaleInterface.stop]
        by_cases hr : s.running <;> simp [hr] at h <;> simp [h]

/-- C8: the lifecycle keeps at most one live sampling task: from the
initial state every `start`/`stop` sequence leaves exactly one live
task while Running and none while Idle; `start` while Running is a
no-op; `stop` is idempotent on any state with at most one task; and
any sequence ending in `stop` leaves the source Idle with no task. -/
theorem scale_lifecycle :
    (∀ ops : List ScaleOp,
      (runOps ScaleInterface.init ops).threads =
        (if (runOps ScaleInterface.init ops).running then 1 else 0)) ∧
    (∀ s : ScaleInterface, s.running = true → s.start = s) ∧
    (∀ s : ScaleInterface, s.threads ≤ 1 → s.stop.stop = s.stop) ∧
    (∀ ops : List ScaleOp,
      (runOps ScaleInterface.init (ops ++ [.stop])).running = false ∧
      (runOps ScaleInterface.init (ops ++ [.stop])).threads = 0) := by
  have base : ScaleInterface.init.threads =
      (if ScaleInterface.init.running then 1 else 0) := rfl
  refine ⟨fun ops => runOps_threads ops _ base, ?_, ?_, ?_⟩
  · intro s h
    simp [ScaleInterface.start, h]
  · intro s h
    have h2 : s.threads - 1 - 1 = s.threads - 1 := by omega
    simp [ScaleInterface.stop, h2]
  · intro ops
    rw [runOps_append]
    have ht := runOps_threads ops _ base
    constructor
    · rfl
    · show (runOps ScaleInterface.init ops).stop.threads = 0
      simp only [ScaleInterface.stop]
      by_cases hr : (runOps ScaleInterface.init ops).running
      · rw [if_pos hr] at ht; omega
      · rw [if_neg hr] at ht; omega

/-- C8 witness: `start` is a no-op on a running one-task state, and
`stop` twice equals `stop` once there. -/
theorem scale_lifecycle_witness :
    ScaleInterface.start { running := true, threads := 1, last_trigger := 0 } =
      { running := true, threads := 1, last_trigger := 0 } ∧
    ScaleInterface.stop (ScaleInterface.stop
      { running := true, threads := 1, last_trigger := 0 }) =
      ScaleInterface.stop { running := true, threads := 1, last_trigger := 0 } :=
  ⟨scale_lifecycle.2.1 _ rfl, scale_lifecycle.2.2.1 _ (by norm_num)⟩

/-- C9: the sampling loop is isolated from callback failures: replacing
the registered callback by any other (including one that always raises)
changes neither the traversal, the final state, nor the invocation
count; and the callback is invoked exactly once per sample accepted by
the debounce rule. -/
theorem callback_failures_isolated :
    (∀ (f g : ℚ → Except String Unit) (s : ScaleInterface) (samples : List (ℚ × ℚ)),
      runTriggers (some f) s samples = runTriggers (some g) s samples) ∧
    (∀ (f : ℚ → Except String Unit) (s : ScaleInterface) (samples : List (ℚ × ℚ)),
      (runTriggers (some f) s samples).2 = countAccepted s.last_trigger samples) := by
  have htrig : ∀ (f : ℚ → Except String Unit) s now w,
      ScaleInterface.trigger (some f) s now w =
        (if now - s.last_trigger < 6/5 then (s, 0)
         else ({ s with last_trigger := now }, 1)) := by
    intro f s now w
    by_cases h : now - s.last_trigger < 6/5
    · rw [trigger_drop h, if_pos h]
    · rw [trigger_accept (not_lt.mp h), if_neg h]
  constructor
  · intro f g s samples
    induction samples generalizing s with
    | nil => rfl
    | cons p rest ih =>
        obtain ⟨now, w⟩ := p
        simp only [runTriggers, htrig]
        rw [ih]
  · intro f s samples
    induction samples generalizing s with
    | nil => rfl
    | cons p rest ih =>
        obtain ⟨now, w⟩ := p
        simp only [runTriggers, htrig, countAccepted]
        by_cases h : now - s.last_trigger < 6/5
        · simp only [if_pos h]
          rw [ih]
          exact Nat.zero_add _
        · simp only [if_neg h]
          rw [ih]

/-- C10: a fresh weight source has `_last_trigger = 0.0`, and since
`start`/`stop` never touch the timestamp, the first sample ever
delivered — at any wall-clock time `now ≥ 1.2` (i.e. at least 1.2 s
past the epoch), however soon after construction or any number of
restarts — is accepted and invokes the callback exactly once. -/
theorem first_sample_never_debounced :
    ScaleInterface.init.last_trigger = 0 ∧
    (∀ (ops : List ScaleOp) (f : ℚ → Except String Unit) (now w : ℚ),
      6/5 ≤ now →
      ScaleInterface.trigger (some f) (runOps ScaleInterface.init ops) now w =
        ({ runOps ScaleInterface.init ops with last_trigger := now }, 1)) := by
  have hlast : ∀ (ops : List ScaleOp) (s : ScaleInterface),
      (runOps s ops).last_trigger = s.last_trigger := by
    intro ops
    induction ops with
    | nil => intro s; rfl
    | cons op rest ih =>
        intro s
        cases op
        · show (runOps s.start rest).last_trigger = _
          rw [ih]
          simp only [ScaleInterface.start]
          by_cases hr : s.running <;> simp [hr]
        · show (runOps s.stop rest).last_trigger = _
          rw [ih]
          rfl

  refine ⟨rfl, ?_⟩
  intro ops f now w h
  apply trigger_accept
  rw [hlast ops ScaleInterface.init]
  show 6/5 ≤ now - 0
  simpa using h

/-- C10 witness: after a stop/start cycle on a fresh source, a first
sample at wall-clock time 2 is accepted and invokes the callback. -/
theorem first_sample_never_debounced_witness :
    ScaleInterface.trigger (some fun _ => .ok ())
      (runOps ScaleInterface.init [ScaleOp.start, ScaleOp.stop, ScaleOp.start]) 2 3 =
      ({ runOps ScaleInterface.init [ScaleOp.start, ScaleOp.stop, ScaleOp.start] with
          last_trigger := 2 }, 1) :=
  first_sample_never_debounced.2 [ScaleOp.start, ScaleOp.stop, ScaleOp.start]
    (fun _ => .ok ()) 2 3 (by norm_num)

end TurkeyLabeler
